import Mathlib

/-!
Shallow embedding of the `simleg` LEGv8 simulator (Go) in Lean 4.

Conventions of the embedding:
* Go `uint64` values are `Nat` with an explicit `% U64` wherever Go
  arithmetic can overflow or wrap.
* Go byte slices are `List Nat` (each entry the value of one byte; the
  memory routines copy bytes verbatim, so no range constraint is needed).
* Fallible Go code (slice indexing that can panic, `panic` calls) is
  modelled with `Option`: `none` means the Go program panics.
* The process-wide RNG (`random.Uint64()`, `random.Read`) is modelled by
  an explicit oracle: memory operations take a `fill : Nat → Nat → Nat`
  argument giving the random contents (block key → offset → byte) that a
  freshly allocated block receives.
-/

def U64 : Nat := 2 ^ 64

/-- Go `strings.HasPrefix s pre`. -/
def strHasPrefix (s p : String) : Bool := p.data.isPrefixOf s.data

/-- Go `strings.HasSuffix s suf`. -/
def strHasSuffix (s p : String) : Bool := p.data.isSuffixOf s.data

/-! ## Memory (`memory.go`)

`type Memory struct { blocks map[uint64]*memoryBlock }` with
`BlockSize = 1 << 10 = 1024`.  A block is a function `Nat → Nat` from offsets
(0..1023) to byte values; the block map is a function from block keys to
`Option` blocks (`none` = block not yet allocated).  The `off` field of
`memoryBlock` is never read by the source, so it is not modelled. -/

def BlockSize : Nat := 1024

/-- The sparse block map backing `Memory`. -/
def Memory : Type := Nat → Option (Nat → Nat)

/-- A `Memory` with no blocks allocated. -/
def emptyMem : Memory := fun _ => none

/-- `Memory.getOrMakeBlock`: look up the block containing `addr`,
allocating it (with contents from the random `fill` oracle, as
`random.Read(b.data[:])` does) when absent.  Returns the updated block
map together with the block. -/
def getOrMakeBlock (fill : Nat → Nat → Nat) (m : Memory) (addr : Nat) :
    Memory × (Nat → Nat) :=
  let k := addr / BlockSize
  match m k with
  | some b => (m, b)
  | none =>
    let b := fill k
    (fun k2 => if k2 = k then some b else m k2, b)

/-- `addr + n` as the Go `uint64` addition computes it: the absolute
address the current loop iteration of `Memory.Read` / `Memory.Write`
starts at. -/
def chunkA (addr n : Nat) : Nat := (addr + n) % U64

/-- `off := (addr + n) % BlockSize`. -/
def chunkOff (addr n : Nat) : Nat := chunkA addr n % BlockSize

/-- `end := off + total - n; if end > BlockSize { end = BlockSize }`,
with `rem = total - n`. -/
def chunkEnd (addr n rem : Nat) : Nat :=
  min (chunkOff addr n + rem) BlockSize

/-- The number of bytes `copy` moves in one loop iteration:
`min(end-off, len(b[n:]))`. -/
def chunkCnt (addr n rem : Nat) : Nat :=
  min (chunkEnd addr n rem - chunkOff addr n) rem

/-- One iteration of the `Memory.Write` loop:
`copy(bk.data[off:end], b[n:])`, writing into the block the updated
bytes and storing it back into the block map. -/
def writeChunk (fill : Nat → Nat → Nat) (m : Memory) (b : List Nat)
    (addr n : Nat) : Memory :=
  fun k =>
    if k = chunkA addr n / BlockSize then
      some (fun o =>
        if chunkOff addr n ≤ o ∧ o < chunkEnd addr n (b.length - n) then
          b.getD (n + (o - chunkOff addr n)) 0
        else (getOrMakeBlock fill m (chunkA addr n)).2 o)
    else (getOrMakeBlock fill m (chunkA addr n)).1 k

/-- Loop of `Memory.Write`.  `n` counts the bytes already written. -/
def memWriteLoop (fill : Nat → Nat → Nat) (m : Memory) (b : List Nat)
    (addr : Nat) (n : Nat) : Memory × Nat :=
  if h : n < b.length then
    memWriteLoop fill (writeChunk fill m b addr n) b addr
      (n + chunkCnt addr n (b.length - n))
  else (m, n)
termination_by b.length - n
decreasing_by
  simp only [chunkCnt, chunkEnd, chunkOff, chunkA, BlockSize, U64]
  omega

/-- The bytes one iteration of the `Memory.Read` loop copies out:
`copy(b[n:], bk.data[off:end])`. -/
def readChunk (fill : Nat → Nat → Nat) (m : Memory) (addr n rem : Nat) :
    List Nat :=
  (List.range (chunkCnt addr n rem)).map
    (fun i => (getOrMakeBlock fill m (chunkA addr n)).2 (chunkOff addr n + i))

/-- Loop of `Memory.Read`.  Accumulates the bytes copied out of the
blocks into `acc` (the Go code copies them into the caller's buffer);
allocation performed by `getOrMakeBlock` is kept. -/
def memReadLoop (fill : Nat → Nat → Nat) (m : Memory) (total addr n : Nat)
    (acc : List Nat) : Memory × Nat × List Nat :=
  if h : n < total then
    memReadLoop fill (getOrMakeBlock fill m (chunkA addr n)).1 total addr
      (n + chunkCnt addr n (total - n))
      (acc ++ readChunk fill m addr n (total - n))
  else (m, n, acc)
termination_by total - n
decreasing_by
  simp only [chunkCnt, chunkEnd, chunkOff, chunkA, BlockSize, U64]
  omega

/-- `Memory.Write(b, addr)`: returns the new memory, the count `n`
written, and the (always-`nil`) error. -/
def Memory.Write (fill : Nat → Nat → Nat) (m : Memory) (b : List Nat)
    (addr : Nat) : Memory × Nat × Option String :=
  let r := memWriteLoop fill m b addr 0
  (r.1, r.2, none)

/-- `Memory.Read(b, addr)` with `len(b) = count`: returns the new memory,
the count `n` read, the bytes delivered into the buffer, and the
(always-`nil`) error. -/
def Memory.Read (fill : Nat → Nat → Nat) (m : Memory) (count : Nat)
    (addr : Nat) : Memory × Nat × List Nat × Option String :=
  let r := memReadLoop fill m count addr 0 []
  (r.1, r.2.1, r.2.2, none)

/-! ### Observation of memory contents

`blockView` / `viewByte` give the byte a `Memory.Read` would deliver:
the stored byte when the covering block is allocated, else the random
bytes the `fill` oracle installs on first touch.  Allocation by
`getOrMakeBlock` does not change this view. -/

/-- The contents of block `k`, looking through pending allocation. -/
def blockView (fill : Nat → Nat → Nat) (m : Memory) (k : Nat) :
    Nat → Nat :=
  match m k with
  | some bl => bl
  | none => fill k

/-- The byte visible at absolute address `p`. -/
def viewByte (fill : Nat → Nat → Nat) (m : Memory) (p : Nat) : Nat :=
  blockView fill m (p / BlockSize) (p % BlockSize)

/-! ## Registers and instructions (`asm.go`)

`Register` is a `uint8` tag: `X0..X30` are 0..30, `XZR` is 31, the
single floats `S0..S31` are 32..63, the double floats `D0..D31` are
64..95.  We model register tags as `Nat`. -/

def XZR : Nat := 31
def IP0 : Nat := 16
def IP1 : Nat := 17
def SP : Nat := 28
def FP : Nat := 29
def LR : Nat := 30
def S0 : Nat := 32
def D0 : Nat := 64

/-- `Addr` operand: register + offset, or a label (the Go struct overlays
all three uses; zero value is `{0, 0, ""}`). -/
structure Addr where
  Reg : Nat := 0
  Offset : Nat := 0
  Label : String := ""
deriving DecidableEq

/-- The `Instruction` record (Go zero values as defaults). -/
structure Instruction where
  Op : String := ""
  To : Addr := {}
  From : Addr := {}
  Reg : Nat := 0
  Imm : Nat := 0
  Label : String := ""
deriving DecidableEq

/-! ## CPU (`cpu.go`) -/

/-- `condFlag` bit values (`1 << iota`): N, Z, V, C. -/
def flagN : Nat := 1
def flagZ : Nat := 2
def flagV : Nat := 4
def flagC : Nat := 8

/-- CPU state.  `Registers` is the backing store of the Go array
`[32]uint64`; only indices 0..31 are ever read or written (an access at
a larger index is a Go panic, modelled by `Option` below). -/
structure CPU where
  PC : Nat := 0
  Registers : Nat → Nat
  Flags : Nat := 0
  labels : String → Nat := fun _ => 0
  prog : List Instruction := []
  Mem : Memory := emptyMem

/-- Read `cpu.Registers[i]`; `none` models the index-out-of-range panic. -/
def regRead (cpu : CPU) (i : Nat) : Option Nat :=
  if i < 32 then some (cpu.Registers i) else none

/-- Write `cpu.Registers[i] = v`; `none` models the panic. -/
def regWrite (cpu : CPU) (i v : Nat) : Option CPU :=
  if i < 32 then
    some { cpu with Registers := fun j => if j = i then v else cpu.Registers j }
  else none

/-- `CPU.valuesFor`: destination tag plus the two operand values.  Ops
whose mnemonic ends in `I` take the immediate as second operand; all
others read a second register. -/
def valuesFor (cpu : CPU) (ins : Instruction) : Option (Nat × Nat × Nat) :=
  if strHasSuffix ins.Op "I" then
    match regRead cpu ins.From.Reg with
    | none => none
    | some a => some (ins.To.Reg, a, ins.Imm)
  else
    match regRead cpu ins.From.Reg, regRead cpu ins.Reg with
    | some a, some c => some (ins.To.Reg, a, c)
    | _, _ => none

/-- `CPU.setFlags`: only `S`-suffixed ops mutate flags.  The Go body is a
`switch` with `fallthrough`: a zero result sets Z, N and C together; the
`v < 0` arm compares an unsigned value and can never fire (kept verbatim
here); otherwise a carry of 1 ors in C; otherwise all flags are cleared. -/
def setFlags (cpu : CPU) (ins : Instruction) (carry : Nat) : Option CPU :=
  if ¬ strHasSuffix ins.Op "S" then some cpu
  else
    match regRead cpu ins.To.Reg with
    | none => none
    | some v =>
      if v = 0 then
        some { cpu with Flags := cpu.Flags ||| flagZ ||| flagN ||| flagC }
      else if v < 0 then
        some { cpu with Flags := cpu.Flags ||| flagN ||| flagC }
      else if carry = 1 then
        some { cpu with Flags := cpu.Flags ||| flagC }
      else
        some { cpu with Flags := 0 }

/-- Register write followed by `setFlags` (the tail of each arithmetic
case of `CPU.arith`). -/
def aluStep (cpu : CPU) (ins : Instruction) (dst v carry : Nat) :
    Option CPU :=
  match regWrite cpu dst v with
  | none => none
  | some c => setFlags c ins carry

/-- `CPU.arith`.  Outer `none` models a panic; `some none` means the
opcode is not an arithmetic/logical op (Go returns `false`);
`some (some c)` is the updated state (Go returns `true`).
`bits.Add64 x y 0` is `((x+y) % 2^64, (x+y) / 2^64)`; `bits.Sub64 x y 0`
is the wrapping difference plus borrow-out. -/
def arith (cpu : CPU) (ins : Instruction) : Option (Option CPU) :=
  match valuesFor cpu ins with
  | none => none
  | some (dst, x, y) =>
    if strHasPrefix ins.Op "ADD" then
      (aluStep cpu ins dst ((x + y) % U64) ((x + y) / U64)).map some
    else if strHasPrefix ins.Op "SUB" then
      (aluStep cpu ins dst (if y ≤ x then x - y else x + U64 - y)
        (if x < y then 1 else 0)).map some
    else if strHasPrefix ins.Op "EOR" then
      (aluStep cpu ins dst (x ^^^ y) 0).map some
    else if strHasPrefix ins.Op "ORR" then
      (aluStep cpu ins dst (x ||| y) 0).map some
    else if strHasPrefix ins.Op "AND" then
      (aluStep cpu ins dst (x &&& y) 0).map some
    else if ins.Op = "LSL" then
      (regWrite cpu dst ((x <<< y) % U64)).map some
    else if ins.Op = "LSR" then
      (regWrite cpu dst (x >>> y)).map some
    else if ins.Op = "MUL" then
      (regWrite cpu dst ((x * y) % U64)).map some
    else some none

/-- `CPU.shouldBranch`: predicate per condition mnemonic, comparing the
masked flag bits exactly as the source does (`val(f) = Flags & f`,
compared against the literals `0` and `1`).  `none` models the
"unknown comparison" error (which `branch` turns into a panic). -/
def shouldBranch (cpu : CPU) (cond : String) : Option Bool :=
  if cond = "EQ" then some (cpu.Flags &&& flagZ == 1)
  else if cond = "NE" then some (cpu.Flags &&& flagZ == 0)
  else if cond = "LT" then some (cpu.Flags &&& flagN != cpu.Flags &&& flagV)
  else if cond = "LE" then
    some (!(cpu.Flags &&& flagZ == 0 && cpu.Flags &&& flagN == cpu.Flags &&& flagV))
  else if cond = "GT" then
    some (cpu.Flags &&& flagZ == 0 && cpu.Flags &&& flagN == cpu.Flags &&& flagV)
  else if cond = "GE" then
    some (cpu.Flags &&& flagN == cpu.Flags &&& flagV)
  else if cond = "LO" then some (cpu.Flags &&& flagC == 0)
  else if cond = "LS" then
    some (!(cpu.Flags &&& flagZ == 0 && cpu.Flags &&& flagC == 1))
  else if cond = "HI" then
    some (cpu.Flags &&& flagZ == 0 && cpu.Flags &&& flagC == 1)
  else if cond = "HS" then some (cpu.Flags &&& flagC == 1)
  else none

/-- The `addr` closure inside `CPU.branch`: a non-empty label resolves
through the label map (a missing key yields the Go zero value 0, which
the map-as-function model gives directly); otherwise the target is
`PC + Offset` in `uint64` arithmetic. -/
def addrOf (cpu : CPU) (dest : Addr) : Nat :=
  if dest.Label ≠ "" then cpu.labels dest.Label
  else (cpu.PC + dest.Offset) % U64

/-- Go `s[2:]`, used to split the condition out of a `B.cond` mnemonic. -/
def strDropTwo (s : String) : String := String.mk (s.data.drop 2)

/-- `CPU.branch`.  Returns the mutated state and the Go return value.
Note the `B` case mutates PC but falls out of the `switch` to
`return false` (there is no `return true` in that case).  `none` models
the `panic(err)` on an unknown `B.`-condition, and register-index
panics. -/
def branch (cpu : CPU) (ins : Instruction) : Option (CPU × Bool) :=
  if ins.Op = "B" then
    some ({ cpu with PC := addrOf cpu ins.To }, false)
  else if ins.Op = "BR" then
    match regRead cpu ins.To.Reg with
    | none => none
    | some v => some ({ cpu with PC := v }, true)
  else if ins.Op = "BL" then
    match regWrite cpu LR cpu.PC with
    | none => none
    | some c => some ({ c with PC := addrOf c ins.To }, true)
  else if ins.Op = "CBZ" then
    match regRead cpu ins.To.Reg with
    | none => none
    | some v =>
      if v ≠ 0 then some ({ cpu with PC := (cpu.PC + 1) % U64 }, true)
      else some ({ cpu with PC := addrOf cpu ins.From }, true)
  else if ins.Op = "CBNZ" then
    match regRead cpu ins.To.Reg with
    | none => none
    | some v =>
      if v = 0 then some ({ cpu with PC := (cpu.PC + 1) % U64 }, true)
      else some ({ cpu with PC := addrOf cpu ins.From }, true)
  else if strHasPrefix ins.Op "B." then
    match shouldBranch cpu (strDropTwo ins.Op) with
    | none => none
    | some ok =>
      if !ok then some ({ cpu with PC := (cpu.PC + 1) % U64 }, true)
      else some ({ cpu with PC := addrOf cpu ins.To }, true)
  else some (cpu, false)

/-- `binary.LittleEndian.PutUint64`: the 8 bytes of `v`, low byte first. -/
def le64 (v : Nat) : List Nat :=
  (List.range 8).map (fun i => v / 256 ^ i % 256)

/-- `binary.LittleEndian.Uint64`: recombine 8 bytes, low byte first. -/
def leU64 (d : List Nat) : Nat :=
  (List.range 8).foldl (fun acc i => acc + d.getD i 0 * 256 ^ i) 0

/-- `CPU.memory`: `STUR` stores the 8 little-endian bytes of `To.Reg` at
`Registers[From.Reg] + From.Offset`; `LDUR` loads 8 bytes from there
into `To.Reg`.  `some none` means the op is neither (Go returns
`false`). -/
def memoryStep (fill : Nat → Nat → Nat) (cpu : CPU) (ins : Instruction) :
    Option (Option CPU) :=
  if ins.Op = "STUR" then
    match regRead cpu ins.To.Reg, regRead cpu ins.From.Reg with
    | some v, some base =>
      some (some { cpu with
        Mem := (Memory.Write fill cpu.Mem (le64 v)
          ((base + ins.From.Offset) % U64)).1 })
    | _, _ => none
  else if ins.Op = "LDUR" then
    match regRead cpu ins.From.Reg with
    | none => none
    | some base =>
      match regWrite { cpu with
          Mem := (Memory.Read fill cpu.Mem 8 ((base + ins.From.Offset) % U64)).1 }
        ins.To.Reg
        (leU64 (Memory.Read fill cpu.Mem 8
          ((base + ins.From.Offset) % U64)).2.2.1) with
      | none => none
      | some c => some (some c)
  else some none

/-- The tail of `CPU.Step`: `return cpu.PC < uint64(len(cpu.prog))`. -/
def finishStep (c : CPU) : CPU × Bool :=
  (c, decide (c.PC < c.prog.length))

/-- `CPU.Step`: run the instruction `PC` points to.  An empty program
returns `false` immediately; otherwise `prog[PC]` is indexed without a
bounds check (`none` = panic when `PC ≥ len(prog)`).  The Go `switch`
evaluates `arith`, then `branch`, then `memory`, keeping any mutations
each makes; `arith` and `memory` successes advance PC by one. -/
def Step (fill : Nat → Nat → Nat) (cpu : CPU) : Option (CPU × Bool) :=
  if cpu.prog = [] then some (cpu, false)
  else if hPC : cpu.PC < cpu.prog.length then
    match arith cpu (cpu.prog.get ⟨cpu.PC, hPC⟩) with
    | none => none
    | some (some c1) => some (finishStep { c1 with PC := (c1.PC + 1) % U64 })
    | some none =>
      match branch cpu (cpu.prog.get ⟨cpu.PC, hPC⟩) with
      | none => none
      | some (c2, true) => some (finishStep c2)
      | some (c2, false) =>
        match memoryStep fill c2 (cpu.prog.get ⟨cpu.PC, hPC⟩) with
        | none => none
        | some (some c3) =>
          some (finishStep { c3 with PC := (c3.PC + 1) % U64 })
        | some none => some (finishStep c2)
  else none

/-- The label map `CPU.Load` builds: one pass over the program; a
labelled instruction at index `i` maps its label to `i` (later
occurrences overwrite earlier ones, as Go map assignment does; absent
keys give the Go zero value 0). -/
def buildLabels (prog : List Instruction) : String → Nat :=
  prog.enum.foldl
    (fun mp p =>
      if p.2.Label ≠ "" then (fun s => if s = p.2.Label then p.1 else mp s)
      else mp)
    (fun _ => 0)

/-- `cpu := &CPU{}; cpu.Load(prog)`: fresh memory, every register seeded
from the random oracle `regs`, labels indexed, PC and flags zero (the
zero value of the Go struct). -/
def loadCPU (regs : Nat → Nat) (prog : List Instruction) : CPU :=
  { PC := 0, Registers := regs, Flags := 0, labels := buildLabels prog,
    prog := prog, Mem := emptyMem }

/-- Iterate `Step` (the driver's `for cpu.Step() {}` loop body),
ignoring the returned Bool. -/
def stepN (fill : Nat → Nat → Nat) : Nat → CPU → Option CPU
  | 0, c => some c
  | n + 1, c =>
    match Step fill c with
    | none => none
    | some (c2, _) => stepN fill n c2

/-! ## Lexer (`lexer.go`)

The Go lexer is a state machine over a string with cursor fields
`start`, `pos`, `width`; tokens are pulled one at a time.  We model the
input as a `List Char` (rune width is 1 for the ASCII sources fed to
it) and produce the whole token stream at once, in emission order.
State functions that loop take fuel; each iteration consumes at least
one character, so `length + 2` fuel always suffices. -/

inductive ItemType where
  | eof
  | error
  | name
  | integer
  | colon
  | comma
  | lbrack
  | rbrack
deriving DecidableEq

structure Item where
  typ : ItemType
  text : String
deriving DecidableEq

structure LexState where
  input : List Char
  start : Nat
  pos : Nat
  width : Nat
deriving DecidableEq

/-- `lexer.next`: return the next rune, or `none` at end of input
(where Go returns the `eof` sentinel rune and sets `width = 0`). -/
def lnext (l : LexState) : LexState × Option Char :=
  if l.pos ≥ l.input.length then ({ l with width := 0 }, none)
  else ({ l with pos := l.pos + 1, width := 1 },
    some (l.input.getD l.pos ' '))

/-- `lexer.backup`: step back one rune. -/
def lbackup (l : LexState) : LexState := { l with pos := l.pos - l.width }

/-- `lexer.emit`: the token text is `input[start:pos]`; `start` catches
up to `pos`. -/
def lemit (l : LexState) (t : ItemType) : Item × LexState :=
  (⟨t, String.mk ((l.input.drop l.start).take (l.pos - l.start))⟩,
    { l with start := l.pos })

/-- `lexer.ignore`. -/
def lignore (l : LexState) : LexState := { l with start := l.pos }

/-- `lexer.ignoreLine`: consume up to and including the next newline
(or end of input, backing up over the eof). -/
def lignoreLine : Nat → LexState → LexState
  | 0, l => lignore l
  | fuel + 1, l =>
    match lnext l with
    | (l1, some c) => if c = '\n' then lignore l1 else lignoreLine fuel l1
    | (l1, none) => lignore (lbackup l1)

/-- `lexer.accept`: consume the next rune if it is in `valid`. -/
def laccept (l : LexState) (valid : List Char) : LexState :=
  match lnext l with
  | (l1, some c) => if c ∈ valid then l1 else lbackup l1
  | (l1, none) => lbackup l1

/-- `lexer.acceptRange`: consume runes while any predicate matches. -/
def acceptWhile : Nat → LexState → List (Char → Bool) → LexState
  | 0, l, _ => l
  | fuel + 1, l, fns =>
    match lnext l with
    | (l1, some c) =>
      if fns.any (fun f => f c) then acceptWhile fuel l1 fns
      else lbackup l1
    | (l1, none) => lbackup l1

/-- `lexName`: letters/digits, one optional internal `.`, then more
letters/digits. -/
def lexNameStep (fuel : Nat) (l : LexState) : Item × LexState :=
  let l1 := acceptWhile fuel l [Char.isAlpha, Char.isDigit]
  let l2 := laccept l1 ['.']
  let l3 := acceptWhile fuel l2 [Char.isAlpha, Char.isDigit]
  lemit l3 .name

/-- `lexInteger`: an optional `#` then a run of digits. -/
def lexIntegerStep (fuel : Nat) (l : LexState) : Item × LexState :=
  let l1 := laccept l ['#']
  let l2 := acceptWhile fuel l1 [Char.isDigit]
  lemit l2 .integer

/-- The `lexInput` driver loop, emitting tokens in order.  The error
cases emit an `error` item and stop, as `errorf` does. -/
def lexInput : Nat → LexState → List Item → List Item
  | 0, _, acc => acc
  | fuel + 1, l, acc =>
    match lnext l with
    | (l1, none) => acc ++ [(lemit l1 .eof).1]
    | (l1, some r) =>
      if r.isWhitespace then lexInput fuel (lignore l1) acc
      else if r = '\n' then lexInput fuel (lignore l1) acc
      else if r = ';' then lexInput fuel (lignoreLine fuel l1) acc
      else if r = ':' then
        match lemit l1 .colon with
        | (tok, l2) => lexInput fuel l2 (acc ++ [tok])
      else if r = ',' then
        match lemit l1 .comma with
        | (tok, l2) => lexInput fuel l2 (acc ++ [tok])
      else if r = '[' then
        match lemit l1 .lbrack with
        | (tok, l2) => lexInput fuel l2 (acc ++ [tok])
      else if r = ']' then
        match lemit l1 .rbrack with
        | (tok, l2) => lexInput fuel l2 (acc ++ [tok])
      else if r = '/' then
        match lnext l1 with
        | (l2, nr) =>
          if nr = some '/' then lexInput fuel (lignoreLine fuel l2) acc
          else acc ++ [⟨.error, "unexpected \x27" ++ String.mk [r] ++ "\x27"⟩]
      else if r = '#' then
        match lnext l1 with
        | (l2, some d) =>
          if d.isDigit then
            match lexIntegerStep fuel (lbackup (lbackup l2)) with
            | (tok, l3) => lexInput fuel l3 (acc ++ [tok])
          else acc ++ [⟨.error, "missing digit"⟩]
        | (_, none) => acc ++ [⟨.error, "missing digit"⟩]
      else if r.isAlpha then
        match lexNameStep fuel (lbackup l1) with
        | (tok, l2) => lexInput fuel l2 (acc ++ [tok])
      else if r.isDigit then
        match lexIntegerStep fuel (lbackup l1) with
        | (tok, l2) => lexInput fuel l2 (acc ++ [tok])
      else acc ++ [⟨.error, "unexpected \x27" ++ String.mk [r] ++ "\x27"⟩]

/-- Tokenise a whole source string. -/
def lexAll (s : String) : List Item :=
  lexInput (s.data.length + 2) ⟨s.data, 0, 0, 0⟩ []

/-! ## Opcode table (`asm.go`) and parser (`parser.go`) -/

inductive InsFormat where
  | rformat
  | iformat
  | dformat
  | bformat
  | cbformat
  | iwformat
  | imformat
deriving DecidableEq

/-- The `opcodes` table: mnemonic → operand format (`imformat` rows have
no parser function in the source). -/
def opcodes (s : String) : Option InsFormat :=
  match s with
  | "ADD" => some .rformat
  | "ADDI" => some .iformat
  | "ADDIS" => some .iformat
  | "ADDS" => some .rformat
  | "AND" => some .rformat
  | "ANDI" => some .iformat
  | "ANDIS" => some .iformat
  | "ANDS" => some .rformat
  | "B" => some .bformat
  | "B.EQ" => some .bformat
  | "B.NE" => some .bformat
  | "B.LT" => some .bformat
  | "B.LE" => some .bformat
  | "B.GT" => some .bformat
  | "B.GE" => some .bformat
  | "B.LO" => some .bformat
  | "B.LS" => some .bformat
  | "B.HI" => some .bformat
  | "B.HS" => some .bformat
  | "B.MI" => some .bformat
  | "B.PL" => some .bformat
  | "B.VS" => some .bformat
  | "B.VC" => some .bformat
  | "BL" => some .bformat
  | "BR" => some .bformat
  | "CBNZ" => some .cbformat
  | "CBZ" => some .cbformat
  | "EOR" => some .rformat
  | "EORI" => some .iformat
  | "LDUR" => some .dformat
  | "LDURB" => some .dformat
  | "LDURH" => some .dformat
  | "LDURS" => some .dformat
  | "LDXR" => some .dformat
  | "LSL" => some .iformat
  | "LSR" => some .iformat
  | "MOVK" => some .imformat
  | "MOVZ" => some .imformat
  | "ORR" => some .rformat
  | "ORRI" => some .iformat
  | "STUR" => some .dformat
  | "STURB" => some .dformat
  | "STURH" => some .dformat
  | "STURW" => some .dformat
  | "STXR" => some .dformat
  | "SUB" => some .rformat
  | "SUBI" => some .iformat
  | "SUBIS" => some .iformat
  | "SUBS" => some .rformat
  | "FADDS" => some .rformat
  | "FADDD" => some .rformat
  | "FCMPS" => some .rformat
  | "FCMPD" => some .rformat
  | "FDIVS" => some .rformat
  | "FDIVD" => some .rformat
  | "FMULS" => some .rformat
  | "FMULD" => some .rformat
  | "FSUBD" => some .rformat
  | "LDURD" => some .dformat
  | "MUL" => some .rformat
  | "SDIV" => some .rformat
  | "SMULH" => some .rformat
  | "STURS" => some .dformat
  | "STURD" => some .dformat
  | "UDIV" => some .rformat
  | "UMULH" => some .rformat
  | _ => none

/-- `Instruction.registerPrefix`.  The empty `case as.Op == "LDURS":`
and `case as.Op == "LDURD":` bodies in the Go `switch` fall out of the
switch (no `fallthrough`), landing on the trailing `return 'X'`;
this is kept verbatim. -/
def regPrefixOf (ins : Instruction) : Char :=
  if strHasPrefix ins.Op "F" then
    (if strHasSuffix ins.Op "S" then 'S' else 'D')
  else if ins.Op = "LDURS" then 'X'
  else if ins.Op = "STURS" then 'S'
  else if ins.Op = "LDURD" then 'X'
  else if ins.Op = "STURD" then 'D'
  else 'X'

/-- Parse errors.  `eofSentinel` is `io.EOF`; `panicMissing` models the
`panic("opcode: ... missing parser")` in `Parser.Next`; everything else
is a `fmt.Errorf` message. -/
inductive PError where
  | eofSentinel
  | panicMissing (s : String)
  | msg (s : String)
deriving DecidableEq

/-- `fmt`'s `%v` rendering of an error (`io.EOF` prints as `EOF`). -/
def errText : PError → String
  | .eofSentinel => "EOF"
  | .panicMissing s => s
  | .msg s => s

/-- `strconv.ParseUint(s, 10, bitSize)`: decimal digits only, value at
most `2^bitSize - 1`. -/
def parseUint (s : String) (bitSize : Nat) : Option Nat :=
  if s.data ≠ [] ∧ s.data.all Char.isDigit then
    (if s.data.foldl (fun a c => a * 10 + (c.toNat - 48)) 0 < 2 ^ bitSize
      then some (s.data.foldl (fun a c => a * 10 + (c.toNat - 48)) 0)
      else none)
  else none

/-- `Parser.nextItem` on the modelled token stream (the lexer always
terminates the stream, so the empty case is unreachable). -/
def pNext (toks : List Item) : Item × List Item :=
  match toks with
  | [] => (⟨.eof, ""⟩, [])
  | t :: rest => (t, rest)

/-- `Parser.expect`: EOF becomes the `io.EOF` sentinel; a
wrongly-typed token becomes an "unexpected token" message. -/
def pExpect (toks : List Item) (typ : ItemType) :
    Except PError String × List Item :=
  match pNext toks with
  | (t, rest) =>
    if t.typ = .eof then (Except.error .eofSentinel, rest)
    else if t.typ ≠ typ then
      (Except.error (.msg ("unexpected token \x27" ++ t.text ++ "\x27")), rest)
    else (Except.ok t.text, rest)

/-- `Parser.has` (peek does not consume). -/
def pHas (toks : List Item) (typ : ItemType) : Bool :=
  match toks with
  | [] => false
  | t :: _ => t.typ = typ

/-- The numeral path of `Parser.expectRegister`: check `t[0]` against
the expected bank prefix, then `ParseUint(t[1:], 10, 8)`, then the
bank's max index. -/
def regFromNumeral (t : String) (pfx : Char) (base maxR : Nat)
    (rest : List Item) : Except PError Nat × List Item :=
  if t.data.headD ' ' ≠ pfx then
    (Except.error (.msg ("not a register \x27" ++ t ++ "\x27")), rest)
  else
    match parseUint (String.mk (t.data.drop 1)) 8 with
    | some n =>
      if n > maxR then
        (Except.error (.msg ("not a register \x27" ++ t ++ "\x27")), rest)
      else (Except.ok (base + n), rest)
    | none =>
      (Except.error (.msg ("not a register \x27" ++ t ++ "\x27")), rest)

/-- `Parser.expectRegister`. -/
def expectRegister (toks : List Item) (pfx : Char) :
    Except PError Nat × List Item :=
  match pExpect toks .name with
  | (Except.error e, rest) => (Except.error e, rest)
  | (Except.ok t, rest) =>
    if t.length > 3 then
      (Except.error (.msg ("not a register \x27" ++ t ++ "\x27")), rest)
    else if pfx = 'X' then
      (if t = "SP" then (Except.ok SP, rest)
       else if t = "FP" then (Except.ok FP, rest)
       else if t = "LR" then (Except.ok LR, rest)
       else if t = "XZR" then (Except.ok XZR, rest)
       else if t = "IP0" then (Except.ok IP0, rest)
       else if t = "IP1" then (Except.ok IP1, rest)
       else regFromNumeral t 'X' 0 30 rest)
    else if pfx = 'S' then regFromNumeral t 'S' S0 31 rest
    else if pfx = 'D' then regFromNumeral t 'D' D0 31 rest
    else
      (Except.error (.msg ("expecting register type \x27" ++
        String.mk [pfx] ++ "\x27")), rest)

/-- `Parser.expectImmediate`.  An optional leading `#` is stripped;
note the source passes `10, 32` to `ParseUint` regardless of its
`bitsize` parameter.  (The text of the `strconv` failure message is
abstracted to "invalid integer".) -/
def expectImmediate (toks : List Item) (bitsize : Nat) :
    Except PError Nat × List Item :=
  match pExpect toks .integer with
  | (Except.error e, rest) =>
    (Except.error (.msg ("not an integer: " ++ errText e)), rest)
  | (Except.ok imm, rest) =>
    match parseUint
      (if imm.data.headD ' ' = '#' then String.mk (imm.data.drop 1) else imm)
      32 with
    | some n => (Except.ok n, rest)
    | none => (Except.error (.msg "invalid integer"), rest)

/-- `Parser.expectOffset`: `[Rn, #imm]`. -/
def expectOffset (toks : List Item) (ins : Instruction) :
    Except PError Addr × List Item :=
  match pExpect toks .lbrack with
  | (Except.error e, rest) => (Except.error e, rest)
  | (Except.ok _, rest) =>
    match expectRegister rest (regPrefixOf ins) with
    | (Except.error e, rest2) => (Except.error e, rest2)
    | (Except.ok r, rest2) =>
      match pExpect rest2 .comma with
      | (Except.error e, rest3) => (Except.error e, rest3)
      | (Except.ok _, rest3) =>
        match expectImmediate rest3 32 with
        | (Except.error e, rest4) =>
          (Except.error (.msg ("offset: " ++ errText e)), rest4)
        | (Except.ok off, rest4) =>
          match pExpect rest4 .rbrack with
          | (Except.error e, rest5) => (Except.error e, rest5)
          | (Except.ok _, rest5) => (Except.ok ⟨r, off, ""⟩, rest5)

/-- `Parser.expectAddr`: a PC-relative numeric offset (parsed with
`ParseUint(_, 10, 64)`, no `#` stripping) or a label name. -/
def expectAddr (toks : List Item) :
    Except PError Addr × List Item :=
  if pHas toks .integer then
    match pExpect toks .integer with
    | (Except.error e, rest) =>
      (Except.error (.msg ("to: " ++ errText e)), rest)
    | (Except.ok off, rest) =>
      match parseUint off 64 with
      | some n => (Except.ok ⟨0, n, ""⟩, rest)
      | none => (Except.error (.msg "to: invalid integer"), rest)
  else
    match pExpect toks .name with
    | (Except.error e, rest) =>
      (Except.error (.msg ("to: " ++ errText e)), rest)
    | (Except.ok lbl, rest) => (Except.ok ⟨0, 0, lbl⟩, rest)

/-- `rformatParser`: `Rd, Rn, Rm`. -/
def parseRFormat (ins : Instruction) (toks : List Item) :
    Except PError Instruction × List Item :=
  match expectRegister toks (regPrefixOf ins) with
  | (Except.error e, rest) =>
    (Except.error (.msg ("to: " ++ errText e)), rest)
  | (Except.ok r1, rest) =>
    match pExpect rest .comma with
    | (Except.error e, rest2) => (Except.error e, rest2)
    | (Except.ok _, rest2) =>
      match expectRegister rest2 (regPrefixOf ins) with
      | (Except.error e, rest3) =>
        (Except.error (.msg ("first operand: " ++ errText e)), rest3)
      | (Except.ok r2, rest3) =>
        match pExpect rest3 .comma with
        | (Except.error e, rest4) => (Except.error e, rest4)
        | (Except.ok _, rest4) =>
          match expectRegister rest4 (regPrefixOf ins) with
          | (Except.error e, rest5) =>
            (Except.error (.msg ("second operand: " ++ errText e)), rest5)
          | (Except.ok r3, rest5) =>
            (Except.ok { ins with Reg := r3, To.Reg := r1, From.Reg := r2 },
              rest5)

/-- `iformatParser`: `Rd, Rn, #imm`.  Note the two comma `expect`s
return their error (including a bare `io.EOF`) unwrapped. -/
def parseIFormat (ins : Instruction) (toks : List Item) :
    Except PError Instruction × List Item :=
  match expectRegister toks (regPrefixOf ins) with
  | (Except.error e, rest) =>
    (Except.error (.msg ("to: " ++ errText e)), rest)
  | (Except.ok r1, rest) =>
    match pExpect rest .comma with
    | (Except.error e, rest2) => (Except.error e, rest2)
    | (Except.ok _, rest2) =>
      match expectRegister rest2 (regPrefixOf ins) with
      | (Except.error e, rest3) =>
        (Except.error (.msg ("first operand: " ++ errText e)), rest3)
      | (Except.ok r2, rest3) =>
        match pExpect rest3 .comma with
        | (Except.error e, rest4) => (Except.error e, rest4)
        | (Except.ok _, rest4) =>
          match expectImmediate rest4 16 with
          | (Except.error e, rest5) =>
            (Except.error (.msg ("immediate: " ++ errText e)), rest5)
          | (Except.ok imm, rest5) =>
            (Except.ok { ins with Imm := imm, To.Reg := r1, From.Reg := r2 },
              rest5)

/-- `dformatParser`: `Rt, [Rn, #off]`. -/
def parseDFormat (ins : Instruction) (toks : List Item) :
    Except PError Instruction × List Item :=
  match expectRegister toks (regPrefixOf ins) with
  | (Except.error e, rest) =>
    (Except.error (.msg ("to: " ++ errText e)), rest)
  | (Except.ok r1, rest) =>
    match pExpect rest .comma with
    | (Except.error e, rest2) => (Except.error e, rest2)
    | (Except.ok _, rest2) =>
      match expectOffset rest2 ins with
      | (Except.error e, rest3) =>
        (Except.error (.msg ("from: " ++ errText e)), rest3)
      | (Except.ok a, rest3) =>
        (Except.ok { ins with To.Reg := r1, From := a }, rest3)

/-- `bformatParser`: a register for `BR`, else an address. -/
def parseBFormat (ins : Instruction) (toks : List Item) :
    Except PError Instruction × List Item :=
  if ins.Op = "BR" then
    match expectRegister toks (regPrefixOf ins) with
    | (Except.error e, rest) =>
      (Except.error (.msg ("to: " ++ errText e)), rest)
    | (Except.ok r, rest) =>
      (Except.ok { ins with To.Reg := r }, rest)
  else
    match expectAddr toks with
    | (Except.error e, rest) =>
      (Except.error (.msg ("to: " ++ errText e)), rest)
    | (Except.ok a, rest) => (Except.ok { ins with To := a }, rest)

/-- `cbformatParser`: `Rt, label` — the register goes into `From.Reg`
and the label into `To.Label`. -/
def parseCBFormat (ins : Instruction) (toks : List Item) :
    Except PError Instruction × List Item :=
  match expectRegister toks (regPrefixOf ins) with
  | (Except.error e, rest) =>
    (Except.error (.msg ("from: " ++ errText e)), rest)
  | (Except.ok r, rest) =>
    match pExpect rest .comma with
    | (Except.error e, rest2) => (Except.error e, rest2)
    | (Except.ok _, rest2) =>
      match pExpect rest2 .name with
      | (Except.error e, rest3) =>
        (Except.error (.msg ("to: " ++ errText e)), rest3)
      | (Except.ok lbl, rest3) =>
        (Except.ok { ins with From.Reg := r, To.Label := lbl }, rest3)

/-- `iwformatParser`: `Rd, #imm`. -/
def parseIWFormat (ins : Instruction) (toks : List Item) :
    Except PError Instruction × List Item :=
  match expectRegister toks (regPrefixOf ins) with
  | (Except.error e, rest) =>
    (Except.error (.msg ("to: " ++ errText e)), rest)
  | (Except.ok r1, rest) =>
    match pExpect rest .comma with
    | (Except.error e, rest2) => (Except.error e, rest2)
    | (Except.ok _, rest2) =>
      match expectImmediate rest2 32 with
      | (Except.error e, rest3) =>
        (Except.error (.msg ("immediate: " ++ errText e)), rest3)
      | (Except.ok imm, rest3) =>
        (Except.ok { ins with To.Reg := r1, Imm := imm }, rest3)

/-- Format dispatch at the end of `Parser.Next` (opcode lookup, the
"opcode not supported" error, and the missing-parser panic for
`imformat`). -/
def parserDispatch (op lbl : String) (toks : List Item) :
    Except PError Instruction × List Item :=
  match opcodes op with
  | none => (Except.error (.msg ("opcode not supported: " ++ op)), toks)
  | some f =>
    match f with
    | .imformat =>
      (Except.error (.panicMissing ("opcode: " ++ op ++ " missing parser")),
        toks)
    | .rformat => parseRFormat { Op := op, Label := lbl } toks
    | .iformat => parseIFormat { Op := op, Label := lbl } toks
    | .dformat => parseDFormat { Op := op, Label := lbl } toks
    | .bformat => parseBFormat { Op := op, Label := lbl } toks
    | .cbformat => parseCBFormat { Op := op, Label := lbl } toks
    | .iwformat => parseIWFormat { Op := op, Label := lbl } toks

/-- `Parser.Next`: one instruction, with optional `Label:` prefix. -/
def parserNext (toks : List Item) :
    Except PError Instruction × List Item :=
  match pExpect toks .name with
  | (Except.error e, rest) => (Except.error e, rest)
  | (Except.ok nm, rest) =>
    if pHas rest .colon then
      match pExpect rest .colon with
      | (_, rest2) =>
        match pExpect rest2 .name with
        | (Except.error e, rest3) => (Except.error e, rest3)
        | (Except.ok op, rest3) => parserDispatch op nm rest3
    else parserDispatch nm "" rest

/-- The driver loop of `main`: `Parser.Next` until `io.EOF`, collecting
the program; any other error is fatal. -/
def parseAll : Nat → List Item → Except PError (List Instruction)
  | 0, _ => Except.error (.msg "out of fuel")
  | fuel + 1, toks =>
    match parserNext toks with
    | (Except.error .eofSentinel, _) => Except.ok []
    | (Except.error e, _) => Except.error e
    | (Except.ok ins, rest) =>
      match parseAll fuel rest with
      | Except.ok l => Except.ok (ins :: l)
      | Except.error e => Except.error e

/-- Lex and parse a whole source text. -/
def parseProg (s : String) : Except PError (List Instruction) :=
  parseAll (s.data.length + 2) (lexAll s)

/-- Lex a source text and parse its first instruction
(what `Parser.Next` returns on the fresh stream). -/
def parseFirst (s : String) : Except PError Instruction :=
  (parserNext (lexAll s)).1

/-! ## Concrete fixtures used by individual claims -/

/-- A fixed random oracle (fresh blocks read as zero bytes). -/
def fill0 : Nat → Nat → Nat := fun _ _ => 0

/-- An `Addr` operand holding only a register. -/
def areg (n : Nat) : Addr := { Reg := n }

/-- An `Addr` operand holding only a label. -/
def albl (s : String) : Addr := { Label := s }

/-- For C1: `ADDS X0, X1, X2` as the parser produces it. -/
def insC1 : Instruction := { Op := "ADDS", To := areg 0, From := areg 1, Reg := 2 }

/-- For C1: a state with V set and `X1 = X2 = 0`, so the `ADDS` result
is zero with no carry. -/
def cpuC1 : CPU := { Registers := fun _ => 0, Flags := flagV }

/-- For C2: flag states with exactly Z, exactly C, and exactly N and V
set. -/
def cpuC2z : CPU := { Registers := fun _ => 0, Flags := flagZ }

def cpuC2c : CPU := { Registers := fun _ => 0, Flags := flagC }

def cpuC2nv : CPU := { Registers := fun _ => 0, Flags := flagN ||| flagV }

/-- For C3: source of a three-line program whose first instruction is
`CBZ X1, fin` with `fin` labelling index 2. -/
def srcC3 : String := "CBZ X1, fin\nADDI X2, XZR, #9\nfin: ADDI X3, XZR, #7"

/-- For C3: the parse of `srcC3`. -/
def progC3 : List Instruction :=
  [{ Op := "CBZ", From := areg 1, To := albl "fin" },
   { Op := "ADDI", To := areg 2, From := areg 31, Imm := 9 },
   { Op := "ADDI", To := areg 3, From := areg 31, Imm := 7, Label := "fin" }]

/-- For C3: `X1 = 0` (so the claim expects the branch taken to index 2)
while `X0 = 5`. -/
def regsC3 : Nat → Nat := fun i => if i = 1 then 0 else 5

def cpuC3 : CPU := loadCPU regsC3 progC3

/-- For C3 (the CBNZ mirror): the same program with `CBNZ X1, fin`. -/
def progC3b : List Instruction :=
  [{ Op := "CBNZ", From := areg 1, To := albl "fin" },
   { Op := "ADDI", To := areg 2, From := areg 31, Imm := 9 },
   { Op := "ADDI", To := areg 3, From := areg 31, Imm := 7, Label := "fin" }]

def cpuC3b : CPU := loadCPU (fun i => if i = 1 then 7 else 5) progC3b

/-- For C5: the spec's scenario S1 source text. -/
def srcS1 : String :=
  "ADDI X1, XZR, #5\nADDI X2, XZR, #7\nADD X3, X1, X2\nSTUR X3, [XZR, #0]"

/-- For C5: the parse of `srcS1`. -/
def progS1 : List Instruction :=
  [{ Op := "ADDI", To := areg 1, From := areg 31, Imm := 5 },
   { Op := "ADDI", To := areg 2, From := areg 31, Imm := 7 },
   { Op := "ADD", To := areg 3, From := areg 1, Reg := 2 },
   { Op := "STUR", To := areg 3, From := areg 31 }]

/-- For C5: one possible outcome of `Load`'s register randomisation:
every register (including index 31, `XZR`) holds 1. -/
def cpuS1 : CPU := loadCPU (fun _ => 1) progS1

/-- For C7: `LSL X1, X2, #3` as the parser produces it (I-format, the
shift amount in `Imm`, the never-populated `Reg` left 0). -/
def insC7 : Instruction := { Op := "LSL", To := areg 1, From := areg 2, Imm := 3 }

/-- For C7: `X2 = 1` (value to shift) and `X0 = 5` (the register the
never-populated `Reg` field denotes). -/
def cpuC7 : CPU := { Registers := fun i => if i = 2 then 1 else 5 }

/-- For C9: a one-instruction program with PC already past the end. -/
def progC9 : List Instruction := [{ Op := "ADD" }]

def cpuC9 : CPU := { Registers := fun _ => 0, PC := 5, prog := progC9 }

/-- The opcodes of claim C10: present in the opcode table but handled by
none of `arith`, `branch`, `memory`. -/
def unhandledOps : List String :=
  ["SDIV", "UDIV", "SMULH", "UMULH",
   "FADDS", "FADDD", "FCMPS", "FCMPD", "FDIVS", "FDIVD", "FMULS", "FMULD",
   "FSUBD",
   "LDURB", "LDURH", "LDURS", "LDURD",
   "STURB", "STURH", "STURW", "STURS", "STURD",
   "LDXR", "STXR", "MOVZ", "MOVK"]

/-- For C10's counterexample: `FADDS S1, S2, S0` as the parser produces
it (S-bank register tags 32..63), about to be stepped. -/
def insC10f : Instruction := { Op := "FADDS", To := areg 33, From := areg 34, Reg := 32 }

def cpuC10f : CPU := loadCPU (fun _ => 0) [insC10f]

/-- For C10's amended theorem and witness: `SDIV X1, X2, X3` (X-bank
registers), about to be stepped. -/
def insC10x : Instruction := { Op := "SDIV", To := areg 1, From := areg 2, Reg := 3 }

def cpuC10x : CPU := loadCPU (fun _ => 9) [insC10x]

/-- For C6's witness: `B fin` over a two-instruction program with `fin`
labelling index 1. -/
def insC6 : Instruction := { Op := "B", To := albl "fin" }

def cpuC6 : CPU := loadCPU (fun _ => 0)
  [insC6, { Op := "ADD", Label := "fin" }]

instance {e a : Type} [DecidableEq e] [DecidableEq a] :
    DecidableEq (Except e a) := fun x y =>
  match x, y with
  | .ok v, .ok w =>
    if h : v = w then isTrue (by rw [h])
    else isFalse (fun hc => by injection hc; contradiction)
  | .error v, .error w =>
    if h : v = w then isTrue (by rw [h])
    else isFalse (fun hc => by injection hc; contradiction)
  | .ok _, .error _ => isFalse (fun hc => Except.noConfusion hc)
  | .error _, .ok _ => isFalse (fun hc => Except.noConfusion hc)

theorem U64_eq : U64 = 18446744073709551616 := by norm_num [U64]

theorem BlockSize_eq : BlockSize = 1024 := by decide

theorem chunkOff_lt (addr n : Nat) : chunkOff addr n < BlockSize :=
  Nat.mod_lt _ (by decide)

theorem chunkCnt_pos (addr n rem : Nat) (h : 0 < rem) :
    0 < chunkCnt addr n rem := by
  have := chunkOff_lt addr n
  simp only [chunkCnt, chunkEnd, BlockSize_eq] at *
  omega

theorem chunkCnt_le (addr n rem : Nat) : chunkCnt addr n rem ≤ rem :=
  min_le_right _ _

theorem blockView_getOrMakeBlock_fst (fill : Nat → Nat → Nat) (m : Memory)
    (a k o : Nat) :
    blockView fill (getOrMakeBlock fill m a).1 k o = blockView fill m k o := by
  simp only [getOrMakeBlock]
  rcases hm : m (a / BlockSize) with _ | bl
  · simp only [hm, blockView]
    by_cases hk : k = a / BlockSize
    · subst hk; simp [hm]
    · simp [hk]
  · simp [hm]

theorem getOrMakeBlock_snd (fill : Nat → Nat → Nat) (m : Memory)
    (a o : Nat) :
    (getOrMakeBlock fill m a).2 o = blockView fill m (a / BlockSize) o := by
  simp only [getOrMakeBlock]
  rcases hm : m (a / BlockSize) with _ | bl <;> simp [hm, blockView]

theorem viewByte_getOrMakeBlock (fill : Nat → Nat → Nat) (m : Memory)
    (a p : Nat) :
    viewByte fill (getOrMakeBlock fill m a).1 p = viewByte fill m p :=
  blockView_getOrMakeBlock_fst fill m a _ _

/-- Addresses written by different byte indices are distinct as long as
the indices are less than `2^64` apart. -/
theorem chunk_addr_inj (addr i j : Nat) (hij : i < j) (hj : j - i < U64)
    (h : (addr + i) % U64 = (addr + j) % U64) : False := by
  simp only [U64_eq] at *
  omega

/-- Within one chunk, byte `d` of the chunk lands at absolute address
`chunkA + d`, in the same block, at offset `chunkOff + d`. -/
theorem chunk_addr_decomp (addr n rem d : Nat)
    (hd : d < chunkCnt addr n rem) :
    (addr + (n + d)) % U64 = chunkA addr n + d ∧
    (chunkA addr n + d) / BlockSize = chunkA addr n / BlockSize ∧
    (chunkA addr n + d) % BlockSize = chunkOff addr n + d := by
  simp only [chunkCnt, chunkEnd, chunkOff, chunkA, BlockSize_eq, U64_eq] at *
  omega

theorem blockView_of_some (fill : Nat → Nat → Nat) (m : Memory) (k : Nat)
    (f : Nat → Nat) (h : m k = some f) (o : Nat) :
    blockView fill m k o = f o := by
  unfold blockView; rw [h]

theorem blockView_congr (fill : Nat → Nat → Nat) (m m2 : Memory) (k : Nat)
    (h : m k = m2 k) (o : Nat) :
    blockView fill m k o = blockView fill m2 k o := by
  unfold blockView; rw [h]

/-- `writeChunk` stores the updated block at the chunk's block key. -/
theorem writeChunk_at_key (fill : Nat → Nat → Nat) (m : Memory)
    (b : List Nat) (addr n : Nat) :
    writeChunk fill m b addr n (chunkA addr n / BlockSize) =
      some (fun o =>
        if chunkOff addr n ≤ o ∧ o < chunkEnd addr n (b.length - n) then
          b.getD (n + (o - chunkOff addr n)) 0
        else (getOrMakeBlock fill m (chunkA addr n)).2 o) := by
  simp [writeChunk]

/-- `writeChunk` leaves other block keys as `getOrMakeBlock` left them. -/
theorem writeChunk_off_key (fill : Nat → Nat → Nat) (m : Memory)
    (b : List Nat) (addr n k : Nat)
    (hk : k ≠ chunkA addr n / BlockSize) :
    writeChunk fill m b addr n k =
      (getOrMakeBlock fill m (chunkA addr n)).1 k := by
  simp [writeChunk, hk]

/-- A chunked write updates the view at the addresses the chunk covers
to the corresponding bytes of `b`. -/
theorem viewByte_writeChunk_hit (fill : Nat → Nat → Nat) (m : Memory)
    (b : List Nat) (addr n d : Nat)
    (hd : d < chunkCnt addr n (b.length - n)) :
    viewByte fill (writeChunk fill m b addr n) (chunkA addr n + d) =
      b.getD (n + d) 0 := by
  obtain ⟨-, hdiv, hmod⟩ := chunk_addr_decomp addr n (b.length - n) d hd
  have hlt : chunkOff addr n + d < chunkEnd addr n (b.length - n) := by
    simp only [chunkCnt] at hd; omega
  unfold viewByte
  rw [hdiv, hmod,
    blockView_of_some fill _ _ _ (writeChunk_at_key fill m b addr n)]
  show (if chunkOff addr n ≤ chunkOff addr n + d ∧
      chunkOff addr n + d < chunkEnd addr n (b.length - n) then
      b.getD (n + (chunkOff addr n + d - chunkOff addr n)) 0
    else (getOrMakeBlock fill m (chunkA addr n)).2 (chunkOff addr n + d)) =
    b.getD (n + d) 0
  rw [if_pos ⟨Nat.le_add_right _ _, hlt⟩]
  congr 1
  omega

/-- A chunked write leaves the view of every address the chunk does not
cover unchanged. -/
theorem viewByte_writeChunk_miss (fill : Nat → Nat → Nat) (m : Memory)
    (b : List Nat) (addr n p : Nat)
    (hmiss : ∀ d, d < chunkCnt addr n (b.length - n) →
      p ≠ chunkA addr n + d) :
    viewByte fill (writeChunk fill m b addr n) p = viewByte fill m p := by
  by_cases hk : p / BlockSize = chunkA addr n / BlockSize
  · have hoff : ¬ (chunkOff addr n ≤ p % BlockSize ∧
        p % BlockSize < chunkEnd addr n (b.length - n)) := by
      rintro ⟨h1, h2⟩
      refine hmiss (p % BlockSize - chunkOff addr n) ?_ ?_
      · simp only [chunkCnt, chunkEnd, chunkOff, chunkA, BlockSize_eq,
          U64_eq] at *
        omega
      · simp only [chunkCnt, chunkEnd, chunkOff, chunkA, BlockSize_eq,
          U64_eq] at *
        omega
    unfold viewByte
    rw [hk, blockView_of_some fill _ _ _ (writeChunk_at_key fill m b addr n)]
    show (if chunkOff addr n ≤ p % BlockSize ∧
        p % BlockSize < chunkEnd addr n (b.length - n) then
        b.getD (n + (p % BlockSize - chunkOff addr n)) 0
      else (getOrMakeBlock fill m (chunkA addr n)).2 (p % BlockSize)) =
      blockView fill m (chunkA addr n / BlockSize) (p % BlockSize)
    rw [if_neg hoff]
    exact getOrMakeBlock_snd fill m _ _
  · unfold viewByte
    rw [blockView_congr fill _ _ _ (writeChunk_off_key fill m b addr n _ hk)]
    exact blockView_getOrMakeBlock_fst fill m _ _ _

/-- Main invariant of the `Memory.Write` loop: it reports `len(b)` bytes
written, leaves the view of every address outside the written range
unchanged, and sets the view at address `(addr+i) % 2^64` to `b[i]` for
every index `i` not yet processed. -/
theorem memWriteLoop_spec (fill : Nat → Nat → Nat) (b : List Nat)
    (addr : Nat) (hb : b.length ≤ U64) :
    ∀ fuel n m, b.length - n ≤ fuel → n ≤ b.length →
      (memWriteLoop fill m b addr n).2 = b.length ∧
      (∀ p, (∀ i, n ≤ i → i < b.length → p ≠ (addr + i) % U64) →
        viewByte fill (memWriteLoop fill m b addr n).1 p = viewByte fill m p) ∧
      (∀ i, n ≤ i → i < b.length →
        viewByte fill (memWriteLoop fill m b addr n).1 ((addr + i) % U64) =
          b.getD i 0) := by
  intro fuel
  induction fuel with
  | zero =>
    intro n m hfuel hn
    have hnn : ¬ n < b.length := by omega
    rw [memWriteLoop, dif_neg hnn]
    exact ⟨by simp; omega, fun p _ => rfl, fun i h1 h2 => by omega⟩
  | succ fuel ih =>
    intro n m hfuel hn
    by_cases h : n < b.length
    · rw [memWriteLoop, dif_pos h]
      have hcntpos : 0 < chunkCnt addr n (b.length - n) :=
        chunkCnt_pos _ _ _ (by omega)
      have hcntle : chunkCnt addr n (b.length - n) ≤ b.length - n :=
        chunkCnt_le _ _ _
      obtain ⟨ih1, ih2, ih3⟩ :=
        ih (n + chunkCnt addr n (b.length - n)) (writeChunk fill m b addr n)
          (by omega) (by omega)
      refine ⟨ih1, ?_, ?_⟩
      · -- frame: addresses outside the whole remaining range keep their view
        intro p hp
        rw [ih2 p (fun i hi1 hi2 => hp i (by omega) hi2)]
        refine viewByte_writeChunk_miss fill m b addr n p ?_
        intro d hd hpd
        obtain ⟨hd1, -, -⟩ := chunk_addr_decomp addr n (b.length - n) d hd
        exact hp (n + d) (by omega) (by omega) (by rw [← hd1] at hpd; exact hpd)
      · -- the written bytes
        intro i hi1 hi2
        by_cases hc : i < n + chunkCnt addr n (b.length - n)
        · -- written by this chunk; the recursion does not touch it again
          obtain ⟨hd1, -, -⟩ :=
            chunk_addr_decomp addr n (b.length - n) (i - n) (by omega)
          have hfr : ∀ j, n + chunkCnt addr n (b.length - n) ≤ j →
              j < b.length → (addr + i) % U64 ≠ (addr + j) % U64 := by
            intro j hj1 hj2 hcol
            exact chunk_addr_inj addr i j (by omega) (by omega) hcol
          rw [ih2 _ hfr]
          have : addr + i = addr + (n + (i - n)) := by omega
          rw [this, hd1]
          have := viewByte_writeChunk_hit fill m b addr n (i - n) (by omega)
          rw [this]
          congr 1
          omega
        · exact ih3 i (by omega) hi2
    · rw [memWriteLoop, dif_neg h]
      exact ⟨by simp; omega, fun p _ => rfl, fun i h1 h2 => by omega⟩

/-- The bytes one read chunk delivers are the `viewByte`s of the chunk's
addresses. -/
theorem readChunk_view (fill : Nat → Nat → Nat) (m : Memory)
    (addr n rem : Nat) :
    readChunk fill m addr n rem =
      (List.range (chunkCnt addr n rem)).map
        (fun i => viewByte fill m ((addr + (n + i)) % U64)) := by
  unfold readChunk
  refine List.map_congr_left ?_
  intro i hi
  rw [List.mem_range] at hi
  obtain ⟨h1, h2, h3⟩ := chunk_addr_decomp addr n rem i hi
  rw [getOrMakeBlock_snd, h1]
  unfold viewByte
  rw [h2, h3]

/-- Main invariant of the `Memory.Read` loop: it reports `total` bytes
read, changes no view (allocation only), and the bytes delivered are the
views of the addresses `(addr+i) % 2^64`. -/
theorem memReadLoop_spec (fill : Nat → Nat → Nat) (total addr : Nat) :
    ∀ fuel n m acc, total - n ≤ fuel → n ≤ total →
      (memReadLoop fill m total addr n acc).2.1 = total ∧
      (∀ p, viewByte fill (memReadLoop fill m total addr n acc).1 p =
        viewByte fill m p) ∧
      (memReadLoop fill m total addr n acc).2.2 =
        acc ++ (List.range (total - n)).map
          (fun i => viewByte fill m ((addr + (n + i)) % U64)) := by
  intro fuel
  induction fuel with
  | zero =>
    intro n m acc hfuel hn
    have hnn : ¬ n < total := by omega
    rw [memReadLoop, dif_neg hnn]
    exact ⟨by simp; omega, fun p => rfl, by simp [show total - n = 0 by omega]⟩
  | succ fuel ih =>
    intro n m acc hfuel hn
    by_cases h : n < total
    · rw [memReadLoop, dif_pos h]
      have hcntpos : 0 < chunkCnt addr n (total - n) :=
        chunkCnt_pos _ _ _ (by omega)
      have hcntle : chunkCnt addr n (total - n) ≤ total - n :=
        chunkCnt_le _ _ _
      obtain ⟨ih1, ih2, ih3⟩ :=
        ih (n + chunkCnt addr n (total - n))
          (getOrMakeBlock fill m (chunkA addr n)).1
          (acc ++ readChunk fill m addr n (total - n)) (by omega) (by omega)
      refine ⟨ih1, ?_, ?_⟩
      · intro p
        rw [ih2 p, viewByte_getOrMakeBlock]
      · rw [ih3, readChunk_view, List.append_assoc]
        congr 1
        have hsplit : total - n = chunkCnt addr n (total - n) +
            (total - (n + chunkCnt addr n (total - n))) := by omega
        conv_rhs => rw [hsplit, List.range_add]
        rw [List.map_append, List.map_map]
        congr 1
        refine List.map_congr_left ?_
        intro i hi
        rw [viewByte_getOrMakeBlock]
        simp only [Function.comp]
        congr 2
        omega
    · rw [memReadLoop, dif_neg h]
      exact ⟨by simp; omega, fun p => rfl, by simp [show total - n = 0 by omega]⟩

/-- **C4** (claim): for every byte sequence `B`, 64-bit address `A`, and
prior memory state, `Memory.Write(B, A)` followed by `Memory.Read` of
`len(B)` bytes at `A` returns exactly `B`, across any number of 1 KiB
block boundaries; both calls return `n = len(B)` and a `nil` error.
(`len(B) ≤ 2^64` holds for every Go slice, whose length is a
non-negative `int`.) -/
theorem c4_memory_write_read_roundtrip (fill : Nat → Nat → Nat)
    (m : Memory) (b : List Nat) (addr : Nat) (hb : b.length ≤ U64) :
    (Memory.Read fill (Memory.Write fill m b addr).1 b.length addr).2.2.1
      = b ∧
    (Memory.Write fill m b addr).2.1 = b.length ∧
    (Memory.Read fill (Memory.Write fill m b addr).1 b.length addr).2.1
      = b.length ∧
    (Memory.Write fill m b addr).2.2 = none ∧
    (Memory.Read fill (Memory.Write fill m b addr).1 b.length addr).2.2.2
      = none := by
  obtain ⟨w1, w2, w3⟩ :=
    memWriteLoop_spec fill b addr hb b.length 0 m (by omega) (by omega)
  obtain ⟨r1, r2, r3⟩ :=
    memReadLoop_spec fill b.length addr b.length 0
      (memWriteLoop fill m b addr 0).1 [] (by omega) (by omega)
  simp only [Memory.Write, Memory.Read]
  refine ⟨?_, w1, r1, by trivial, by trivial⟩
  rw [r3]
  simp only [List.nil_append, Nat.sub_zero, Nat.zero_add]
  apply List.ext_getElem
  · simp
  · intro i h1 h2
    simp only [List.getElem_map, List.getElem_range]
    rw [w3 i (by omega) (by simpa using h2)]
    exact List.getD_eq_getElem b 0 h2

/-- Witness for C4 at a concrete input that crosses the first 1 KiB
block boundary: write 3 bytes at address 1022 into a fresh memory. -/
theorem c4_memory_write_read_roundtrip_witness :
    ([17, 34, 51] : List Nat).length ≤ U64 ∧
    (Memory.Read (fun _ _ => 0)
      (Memory.Write (fun _ _ => 0) emptyMem [17, 34, 51] 1022).1
      3 1022).2.2.1 = [17, 34, 51] :=
  ⟨by decide,
    (c4_memory_write_read_roundtrip (fun _ _ => 0) emptyMem [17, 34, 51]
      1022 (by decide)).1⟩

/-! ## Lemmas about `Step` dispatch -/

theorem str_ne_of_data_ne (s t : String) (h : s.data ≠ t.data) : s ≠ t :=
  fun he => h (congrArg String.data he)

/-- A mnemonic starting with `"B."` has data `'B' :: '.' :: t`. -/
theorem strHasPrefix_Bdot (s : String) (h : strHasPrefix s "B." = true) :
    ∃ t, s.data = 'B' :: '.' :: t := by
  unfold strHasPrefix at h
  obtain ⟨t, ht⟩ := List.isPrefixOf_iff_prefix.mp h
  exact ⟨t, by rw [← ht]; rfl⟩

/-- `valuesFor` succeeds whenever the register fields it reads are in
range. -/
theorem valuesFor_some (cpu : CPU) (ins : Instruction)
    (hFrom : ins.From.Reg < 32) (hReg : ins.Reg < 32) :
    ∃ v, valuesFor cpu ins = some v := by
  unfold valuesFor regRead
  by_cases hI : strHasSuffix ins.Op "I" <;> simp [hI, hFrom, hReg]

/-- `arith` declines (returns `false`) on any op outside its eight
families, provided its operand reads do not panic. -/
theorem arith_not_alu (cpu : CPU) (ins : Instruction)
    (hFrom : ins.From.Reg < 32) (hReg : ins.Reg < 32)
    (h1 : strHasPrefix ins.Op "ADD" = false)
    (h2 : strHasPrefix ins.Op "SUB" = false)
    (h3 : strHasPrefix ins.Op "EOR" = false)
    (h4 : strHasPrefix ins.Op "ORR" = false)
    (h5 : strHasPrefix ins.Op "AND" = false)
    (h6 : ins.Op ≠ "LSL") (h7 : ins.Op ≠ "LSR") (h8 : ins.Op ≠ "MUL") :
    arith cpu ins = some none := by
  obtain ⟨⟨dst, x, y⟩, hv⟩ := valuesFor_some cpu ins hFrom hReg
  unfold arith
  rw [hv]
  simp [h1, h2, h3, h4, h5, h6, h7, h8]

/-- `branch` declines, without touching the state, on any op outside
its six cases. -/
theorem branch_not_branch (cpu : CPU) (ins : Instruction)
    (h9 : ins.Op ≠ "B") (h10 : ins.Op ≠ "BR") (h11 : ins.Op ≠ "BL")
    (h12 : ins.Op ≠ "CBZ") (h13 : ins.Op ≠ "CBNZ")
    (h14 : strHasPrefix ins.Op "B." = false) :
    branch cpu ins = some (cpu, false) := by
  unfold branch
  simp [h9, h10, h11, h12, h13, h14]

/-- `memory` declines on any op that is not exactly `STUR` or `LDUR`. -/
theorem memoryStep_not_mem (fill : Nat → Nat → Nat) (cpu : CPU)
    (ins : Instruction) (h15 : ins.Op ≠ "STUR") (h16 : ins.Op ≠ "LDUR") :
    memoryStep fill cpu ins = some none := by
  unfold memoryStep
  simp [h15, h16]

/-- `Step` when `arith` declines and `branch` handles the op
(returning `true`). -/
theorem Step_branch_true (fill : Nat → Nat → Nat) (cpu c2 : CPU)
    (ins : Instruction) (hne : cpu.prog ≠ [])
    (hPC : cpu.PC < cpu.prog.length)
    (hins : cpu.prog.get ⟨cpu.PC, hPC⟩ = ins)
    (ha : arith cpu ins = some none)
    (hb : branch cpu ins = some (c2, true)) :
    Step fill cpu = some (finishStep c2) := by
  unfold Step
  rw [if_neg hne, dif_pos hPC, hins]
  simp only [ha, hb]

/-- `Step` when `arith` declines, `branch` returns `false` (possibly
after mutating PC, as the `B` case does), and `memory` declines. -/
theorem Step_branch_false (fill : Nat → Nat → Nat) (cpu c2 : CPU)
    (ins : Instruction) (hne : cpu.prog ≠ [])
    (hPC : cpu.PC < cpu.prog.length)
    (hins : cpu.prog.get ⟨cpu.PC, hPC⟩ = ins)
    (ha : arith cpu ins = some none)
    (hb : branch cpu ins = some (c2, false))
    (hm : memoryStep fill c2 ins = some none) :
    Step fill cpu = some (finishStep c2) := by
  unfold Step
  rw [if_neg hne, dif_pos hPC, hins]
  simp only [ha, hb, hm]

/-- **C6** (claim): after `B label`, PC equals the index the label
resolves to; after `BL label`, LR holds the pre-branch PC and PC is the
branch target; after an untaken `B.cond`, PC advances by exactly 1.
Side conditions reflecting the code: the program is a real Go slice
(length below `2^64`), PC is in bounds, and the instruction's
second-operand register fields index the 32-entry register file, as
every parsed `B`/`BL`/`B.cond` instruction does (both fields are 0). -/
theorem c6_branch_semantics (fill : Nat → Nat → Nat) (cpu : CPU)
    (ins : Instruction) (hne : cpu.prog ≠ [])
    (hPC : cpu.PC < cpu.prog.length)
    (hins : cpu.prog.get ⟨cpu.PC, hPC⟩ = ins)
    (hFrom : ins.From.Reg < 32) (hReg : ins.Reg < 32)
    (hlen : cpu.prog.length < U64) :
    (ins.Op = "B" → ins.To.Label ≠ "" →
      ∃ c b2, Step fill cpu = some (c, b2) ∧
        c.PC = cpu.labels ins.To.Label) ∧
    (ins.Op = "BL" → ins.To.Label ≠ "" →
      ∃ c b2, Step fill cpu = some (c, b2) ∧
        c.Registers LR = cpu.PC ∧ c.PC = cpu.labels ins.To.Label) ∧
    (strHasPrefix ins.Op "B." = true →
      shouldBranch cpu (strDropTwo ins.Op) = some false →
      ∃ c b2, Step fill cpu = some (c, b2) ∧ c.PC = cpu.PC + 1) := by
  refine ⟨?_, ?_, ?_⟩
  · -- B label
    intro hop hlbl
    have ha : arith cpu ins = some none :=
      arith_not_alu cpu ins hFrom hReg (by rw [hop]; decide)
        (by rw [hop]; decide) (by rw [hop]; decide) (by rw [hop]; decide)
        (by rw [hop]; decide) (by rw [hop]; decide) (by rw [hop]; decide)
        (by rw [hop]; decide)
    have hb : branch cpu ins =
        some ({ cpu with PC := addrOf cpu ins.To }, false) := by
      unfold branch
      rw [if_pos hop]
    have hm : memoryStep fill { cpu with PC := addrOf cpu ins.To } ins =
        some none :=
      memoryStep_not_mem fill _ ins (by rw [hop]; decide)
        (by rw [hop]; decide)
    have hstep := Step_branch_false fill cpu _ ins hne hPC hins ha hb hm
    refine ⟨_, _, hstep, ?_⟩
    show addrOf cpu ins.To = cpu.labels ins.To.Label
    unfold addrOf
    rw [if_pos hlbl]
  · -- BL label
    intro hop hlbl
    have ha : arith cpu ins = some none :=
      arith_not_alu cpu ins hFrom hReg (by rw [hop]; decide)
        (by rw [hop]; decide) (by rw [hop]; decide) (by rw [hop]; decide)
        (by rw [hop]; decide) (by rw [hop]; decide) (by rw [hop]; decide)
        (by rw [hop]; decide)
    have hb : branch cpu ins =
        some ({ cpu with
          Registers := fun j => if j = LR then cpu.PC else cpu.Registers j,
          PC := addrOf { cpu with
            Registers := fun j => if j = LR then cpu.PC else cpu.Registers j }
            ins.To }, true) := by
      unfold branch
      rw [if_neg (by rw [hop]; decide), if_neg (by rw [hop]; decide),
        if_pos hop]
      unfold regWrite
      rw [if_pos (by decide : LR < 32)]
    have hstep := Step_branch_true fill cpu _ ins hne hPC hins ha hb
    refine ⟨_, _, hstep, ?_, ?_⟩
    · show (if LR = LR then cpu.PC else cpu.Registers LR) = cpu.PC
      rw [if_pos rfl]
    · show addrOf _ ins.To = cpu.labels ins.To.Label
      unfold addrOf
      rw [if_pos hlbl]
  · -- untaken B.cond
    intro hpre huntaken
    obtain ⟨t, ht⟩ := strHasPrefix_Bdot ins.Op hpre
    have h9 : ins.Op ≠ "B" :=
      str_ne_of_data_ne _ _ (by rw [ht]; simp)
    have h10 : ins.Op ≠ "BR" :=
      str_ne_of_data_ne _ _ (by rw [ht]; simp)
    have h11 : ins.Op ≠ "BL" :=
      str_ne_of_data_ne _ _ (by rw [ht]; simp)
    have h12 : ins.Op ≠ "CBZ" :=
      str_ne_of_data_ne _ _ (by rw [ht]; simp)
    have h13 : ins.Op ≠ "CBNZ" :=
      str_ne_of_data_ne _ _ (by rw [ht]; simp)
    have ha : arith cpu ins = some none :=
      arith_not_alu cpu ins hFrom hReg
        (by unfold strHasPrefix; rw [ht]; simp [List.isPrefixOf])
        (by unfold strHasPrefix; rw [ht]; simp [List.isPrefixOf])
        (by unfold strHasPrefix; rw [ht]; simp [List.isPrefixOf])
        (by unfold strHasPrefix; rw [ht]; simp [List.isPrefixOf])
        (by unfold strHasPrefix; rw [ht]; simp [List.isPrefixOf])
        (str_ne_of_data_ne _ _ (by rw [ht]; simp))
        (str_ne_of_data_ne _ _ (by rw [ht]; simp))
        (str_ne_of_data_ne _ _ (by rw [ht]; simp))
    have hb : branch cpu ins =
        some ({ cpu with PC := (cpu.PC + 1) % U64 }, true) := by
      unfold branch
      rw [if_neg h9, if_neg h10, if_neg h11, if_neg h12, if_neg h13,
        if_pos hpre, huntaken]
      rfl
    have hstep := Step_branch_true fill cpu _ ins hne hPC hins ha hb
    refine ⟨_, _, hstep, ?_⟩
    show (cpu.PC + 1) % U64 = cpu.PC + 1
    exact Nat.mod_eq_of_lt (by omega)

/-- **C9** (claim): with a non-empty program and `PC ≥ len(prog)`,
`Step` panics on the unchecked index `prog[PC]`; only the empty-program
case returns `false` safely. -/
theorem c9_step_out_of_bounds_panics (fill : Nat → Nat → Nat)
    (cpu : CPU) :
    (cpu.prog ≠ [] → cpu.prog.length ≤ cpu.PC → Step fill cpu = none) ∧
    (cpu.prog = [] → Step fill cpu = some (cpu, false)) := by
  constructor
  · intro h1 h2
    unfold Step
    rw [if_neg h1, dif_neg (by omega)]
  · intro h1
    unfold Step
    rw [if_pos h1]

/-- Witness for C9: a one-instruction program with `PC = 5`. -/
theorem c9_step_out_of_bounds_panics_witness :
    cpuC9.prog ≠ [] ∧ cpuC9.prog.length ≤ cpuC9.PC ∧
    Step fill0 cpuC9 = none :=
  ⟨by decide, by decide,
    (c9_step_out_of_bounds_panics fill0 cpuC9).1 (by decide) (by decide)⟩

/-- **C10** (counterexample to the claim as stated): `FADDS S1, S2, S0`
has its opcode in the table and is handled by none of `arith`,
`branch`, `memory`, and sits at `PC = 0 < 1 = len(prog)` — yet `Step`
does not return `true` leaving the state unchanged: it panics
(`valuesFor` indexes `Registers[34]`, out of range for `[32]uint64`),
modelled as `none`. -/
theorem c10_unhandled_counterexample : Step fill0 cpuC10f = none := rfl

/-- **C10** (amended): for every instruction whose opcode is in the
table but handled by none of `arith`, `branch`, `memory`, *and whose
`From.Reg` and `Reg` fields index the 32-entry register file* (as holds
for all X-register operands; S/D-bank operands panic in `valuesFor`),
`Step` leaves the entire CPU state unchanged and returns `true`
whenever `PC < len(prog)`. -/
theorem c10_unhandled_frame (fill : Nat → Nat → Nat) (cpu : CPU)
    (ins : Instruction) (hne : cpu.prog ≠ [])
    (hPC : cpu.PC < cpu.prog.length)
    (hins : cpu.prog.get ⟨cpu.PC, hPC⟩ = ins)
    (hop : ins.Op ∈ unhandledOps)
    (hFrom : ins.From.Reg < 32) (hReg : ins.Reg < 32) :
    Step fill cpu = some (cpu, true) := by
  have hprops : strHasPrefix ins.Op "ADD" = false ∧
      strHasPrefix ins.Op "SUB" = false ∧
      strHasPrefix ins.Op "EOR" = false ∧
      strHasPrefix ins.Op "ORR" = false ∧
      strHasPrefix ins.Op "AND" = false ∧
      ins.Op ≠ "LSL" ∧ ins.Op ≠ "LSR" ∧ ins.Op ≠ "MUL" ∧
      ins.Op ≠ "B" ∧ ins.Op ≠ "BR" ∧ ins.Op ≠ "BL" ∧
      ins.Op ≠ "CBZ" ∧ ins.Op ≠ "CBNZ" ∧
      strHasPrefix ins.Op "B." = false ∧
      ins.Op ≠ "STUR" ∧ ins.Op ≠ "LDUR" := by
    simp only [unhandledOps, List.mem_cons, List.not_mem_nil, or_false]
      at hop
    rcases hop with h|h|h|h|h|h|h|h|h|h|h|h|h|h|h|h|h|h|h|h|h|h|h|h|h|h <;>
      rw [h] <;> exact (by decide)
  obtain ⟨h1, h2, h3, h4, h5, h6, h7, h8, h9, h10, h11, h12, h13, h14,
    h15, h16⟩ := hprops
  have hstep := Step_branch_false fill cpu cpu ins hne hPC hins
    (arith_not_alu cpu ins hFrom hReg h1 h2 h3 h4 h5 h6 h7 h8)
    (branch_not_branch cpu ins h9 h10 h11 h12 h13 h14)
    (memoryStep_not_mem fill cpu ins h15 h16)
  rw [hstep]
  unfold finishStep
  rw [decide_eq_true hPC]

/-- Witness for the amended C10: `SDIV X1, X2, X3` at `PC = 0` of a
one-instruction program steps to an unchanged state and returns
`true`. -/
theorem c10_unhandled_frame_witness :
    insC10x.Op ∈ unhandledOps ∧ insC10x.From.Reg < 32 ∧
    Step fill0 cpuC10x = some (cpuC10x, true) :=
  ⟨by decide, by decide,
    c10_unhandled_frame fill0 cpuC10x insC10x (by decide) (by decide)
      (by decide) (by decide) (by decide) (by decide)⟩

/-- **C1** (evaluating the code at a failing input): `ADDS X0, X1, X2`
with `X1 = X2 = 0` and only V set beforehand.  The result is 0 with no
carry-out and a clear high bit, so the claim requires exactly Z set
(flags = `0b0010` = 2).  The code's fallthrough instead ors Z, N and C
into the *prior* flags, producing `0b1111` = 15: N is set though bit 63
of the result is 0, C is set though there was no carry, and the stale V
survives — and the outcome depends on the prior flag value. -/
theorem c1_setFlags_fallthrough_bug :
    (arith cpuC1 insC1).map (Option.map CPU.Flags) = some (some 15) ∧
    (arith cpuC1 insC1).map (Option.map (fun c => c.Registers 0)) =
      some (some 0) ∧
    Nat.testBit 0 63 = false ∧ (15 : Nat) ≠ flagZ := by
  refine ⟨by decide, by decide, by decide, by decide⟩

/-- **C2** (evaluating the code at failing inputs): `shouldBranch`
masks a flag bit and compares the mask with the literal `1`, but
`flagZ = 2` and `flagC = 8`.  So `EQ` with Z set and `HS` with C set
both evaluate to `false` (the claim requires `true`), and `LT` with
both N and V set evaluates to `true` (the claim requires `false`,
since N = V). -/
theorem c2_shouldBranch_literal_one_bug :
    (shouldBranch cpuC2z "EQ" = some false ∧ cpuC2z.Flags &&& flagZ ≠ 0) ∧
    (shouldBranch cpuC2c "HS" = some false ∧ cpuC2c.Flags &&& flagC ≠ 0) ∧
    (shouldBranch cpuC2nv "LT" = some true ∧
      cpuC2nv.Flags &&& flagN ≠ 0 ∧ cpuC2nv.Flags &&& flagV ≠ 0) := by
  refine ⟨⟨by decide, by decide⟩, ⟨by decide, by decide⟩,
    by decide, by decide, by decide⟩

/-- **C3** (evaluating the code at a failing input): the program
`CBZ X1, fin; ADDI X2, XZR, #9; fin: ADDI X3, XZR, #7` parses with the
register in `From.Reg` and the label in `To.Label`, and `fin` resolves
to index 2.  With `X1 = 0` the claim requires PC ← 2.  But `branch`
tests `Registers[To.Reg]` — i.e. `X0` = 5 ≠ 0 — and so falls to
PC ← PC+1 = 1.  (In the CBNZ mirror with `X1 = 7 ≠ 0` the claim
requires PC ← 2, but the code, testing `X0` ≠ 0, "branches" to
`addr(From)` = PC + From.Offset = 0.) -/
theorem c3_cbz_swapped_fields_bug :
    parseProg srcC3 = Except.ok progC3 ∧
    cpuC3.Registers 1 = 0 ∧ cpuC3.labels "fin" = 2 ∧
    (Step fill0 cpuC3).map (fun p => p.1.PC) = some 1 ∧
    (Step fill0 cpuC3b).map (fun p => p.1.PC) = some 0 := by
  refine ⟨by decide, by decide, by decide, by decide, by decide⟩

/-- **C5** (evaluating the code at a failing input): running scenario
S1 from a `Load`-produced state in which the randomised registers are
all 1 (in particular `Registers[31]`, the slot named `XZR`, is 1).
Because nothing zeroes reads of `XZR`, `ADDI X1, XZR, #5` yields 6,
`ADDI X2, XZR, #7` yields 8, and `X3 = 14 ≠ 12`. -/
theorem c5_s1_xzr_not_zero_bug :
    parseProg srcS1 = Except.ok progS1 ∧
    (stepN fill0 4 cpuS1).map (fun c => c.Registers 3) = some 14 ∧
    (14 : Nat) ≠ 12 := by
  refine ⟨by decide, by decide, by decide⟩

/-- **C7** (evaluating the code at a failing input): `LSL X1, X2, #3`
parses as I-format with the shift amount 3 in `Imm`.  But `valuesFor`
selects the immediate only for mnemonics ending in `I`; `LSL` does
not, so execution shifts by `Registers[as.Reg]` — the never-populated
`Reg` field, i.e. `X0`.  With `X2 = 1` and `X0 = 5` the result is
`1 << 5 = 32`, not the claimed `1 << 3 = 8`. -/
theorem c7_lsl_ignores_imm_bug :
    parseFirst "LSL X1, X2, #3" = Except.ok insC7 ∧
    (arith cpuC7 insC7).map (Option.map (fun c => c.Registers 1)) =
      some (some 32) ∧
    (1 <<< 3 : Nat) = 8 := by
  refine ⟨by decide, by decide, by decide⟩

/-- **C8** (evaluating the code at the failing input): parsing
`ADDI X1, X2` does not produce an error mentioning "immediate" — the
`expect(itemComma)` after `X2` meets end-of-input and `iformatParser`
returns that error unwrapped, so `Parser.Next` surfaces exactly the
`io.EOF` end-of-stream sentinel (which the driver treats as clean end
of input). -/
theorem c8_parse_error_eof_sentinel_bug :
    parseFirst "ADDI X1, X2" = Except.error PError.eofSentinel := by
  decide

/-- Witness for C6: `B fin` at index 0 of a program where `fin` labels
index 1 steps to `PC = labels["fin"]`. -/
theorem c6_branch_semantics_witness :
    cpuC6.prog.length < U64 ∧
    (∃ c b2, Step fill0 cpuC6 = some (c, b2) ∧
      c.PC = cpuC6.labels insC6.To.Label) :=
  ⟨by decide,
    (c6_branch_semantics fill0 cpuC6 insC6 (by decide) (by decide)
      (by decide) (by decide) (by decide) (by decide)).1 rfl (by decide)⟩
